import Mathlib

/-!
Verification of the Token Stream Player core of the markdown streaming demo
(`src/app/page.tsx`).

Text is modelled as a list of natural numbers (the UTF-8 bytes of a JS
string; a multi-byte symbol is several entries). The React component's
state (`markdown`, `tokens`, `currentTokenIndex`, `isPlaying`,
`playbackSpeed`) is the record `AppState`; each event handler and each
`useEffect` body of the source becomes a state-transition function.

The two external libraries the component calls — the `js-tiktoken` BPE
tokenizer and the `lz-string` share codec — are not part of this
repository's sources, so they are modelled from the spec (§4.1 Tokenizer
Adapter, §4.4 Share-State Codec); those definitions carry a
`Modelled from the spec:` doc comment.
-/

namespace MarkdownStreaming

/-- Modelled from the spec: the fixed sub-word vocabulary of the Tokenizer
Adapter (§4.1).  The `js-tiktoken` encoder used by `src/app/page.tsx`
(`new Tiktoken(o200k_base)`) is not in this repository's sources, so a
byte-level BPE vocabulary is modelled: `bytesOf` is the decode table from
token id to byte string, `merges` the ordered merge rules `(x, y, z)`
replacing adjacent tokens `x, y` by `z`.  The two soundness fields record
what holds of a BPE rank table by construction: ids below 256 are the raw
bytes, and a merged token's bytes are the concatenation of its parts'. -/
structure Vocab where
  bytesOf : Nat → List Nat
  merges : List (Nat × Nat × Nat)
  base_sound : ∀ b, b < 256 → bytesOf b = [b]
  merge_sound : ∀ m ∈ merges, bytesOf m.2.2 = bytesOf m.1 ++ bytesOf m.2.1

/-- Modelled from the spec: one left-to-right pass replacing each adjacent
pair `x, y` of token ids by the merged id `z` (the elementary step of BPE
encoding). -/
def mergePass (x y z : Nat) : List Nat → List Nat
  | [] => []
  | [a] => [a]
  | a :: b :: rest =>
    if a = x ∧ b = y then z :: mergePass x y z rest
    else a :: mergePass x y z (b :: rest)

/-- Modelled from the spec: apply the merge rules in their priority order. -/
def applyMerges (ms : List (Nat × Nat × Nat)) (l : List Nat) : List Nat :=
  ms.foldl (fun acc m => mergePass m.1 m.2.1 m.2.2 acc) l

/-- Modelled from the spec: `encode(text) -> ordered sequence of TokenId`
(§4.1); the text's bytes start as one token each and the vocabulary's merge
rules are applied. -/
def encode (v : Vocab) (t : List Nat) : List Nat :=
  applyMerges v.merges t

/-- Modelled from the spec: `decode(ordered sequence of TokenId) -> text`
(§4.1); the concatenation of each token's byte string. -/
def decode (v : Vocab) (ts : List Nat) : List Nat :=
  ts.flatMap v.bytesOf

/-- A small concrete vocabulary (one merge rule: bytes 97, 98 merge into
token 256) used to instantiate the theorems on concrete inputs. -/
def tinyVocab : Vocab where
  bytesOf := fun n => if n = 256 then [97, 98] else [n]
  merges := [(97, 98, 256)]
  base_sound := by
    intro b hb
    simp [Nat.ne_of_lt hb]
  merge_sound := by
    intro m hm
    simp only [List.mem_singleton] at hm
    subst hm
    rfl

/-- The component state of `MarkdownStreamingDemo` (`src/app/page.tsx`,
lines 53–58): the five `useState` hooks. -/
structure AppState where
  markdown : List Nat
  tokens : List Nat
  currentTokenIndex : Nat
  isPlaying : Bool
  playbackSpeed : Nat
  deriving DecidableEq

/-- The tokenize effect (`src/app/page.tsx` lines 77–88) with the outcome of
`encoder.encode(markdown)` passed in explicitly, so that the `catch` branch
can be stated: when `markdown` is non-empty, success stores the new tokens
and resets the cursor to 0; failure stores `[]` and touches nothing else.
When `markdown` is empty (`if (markdown)` is falsy) nothing happens. -/
def tokenizeEffectWith (s : AppState) (result : Except Unit (List Nat)) : AppState :=
  if s.markdown.isEmpty then s
  else
    match result with
    | Except.ok ts => { s with tokens := ts, currentTokenIndex := 0 }
    | Except.error _ => { s with tokens := [] }

/-- The tokenize effect on the success path: `encoder.encode` is total in the
model. -/
def tokenizeEffect (v : Vocab) (s : AppState) : AppState :=
  tokenizeEffectWith s (Except.ok (encode v s.markdown))

/-- The `Textarea` `onChange` handler (`src/app/page.tsx` line 264) followed
by the tokenize effect it triggers. -/
def textareaOnChange (v : Vocab) (s : AppState) (newText : List Nat) : AppState :=
  tokenizeEffect v { s with markdown := newText }

/-- One settling step of the autoplay effect (`src/app/page.tsx` lines
91–100): while playing below the end, the scheduled timeout fires and
advances the cursor by one, clamped to the token count
(`Math.min(prev + 1, tokens.length)`); while playing at or past the end the
effect stops playback; otherwise nothing happens. -/
def autoplayStep (s : AppState) : AppState :=
  if s.isPlaying ∧ s.currentTokenIndex < s.tokens.length then
    { s with currentTokenIndex := min (s.currentTokenIndex + 1) s.tokens.length }
  else if s.isPlaying then { s with isPlaying := false }
  else s

/-- The `ArrowLeft` branch of `handleKeyDown` (`src/app/page.tsx` lines
108–112): `Math.max(0, prev - 1)` (truncated subtraction on `Nat`) and stop
playback. -/
def handleArrowLeft (s : AppState) : AppState :=
  { s with currentTokenIndex := s.currentTokenIndex - 1, isPlaying := false }

/-- The `ArrowRight` branch of `handleKeyDown` (`src/app/page.tsx` lines
113–117): `Math.min(prev + 1, tokens.length)` and stop playback. -/
def handleArrowRight (s : AppState) : AppState :=
  { s with currentTokenIndex := min (s.currentTokenIndex + 1) s.tokens.length,
           isPlaying := false }

/-- `togglePlayback` (`src/app/page.tsx` lines 156–158). -/
def togglePlayback (s : AppState) : AppState :=
  { s with isPlaying := !s.isPlaying }

/-- `resetToStart` (`src/app/page.tsx` lines 160–163). -/
def resetToStart (s : AppState) : AppState :=
  { s with currentTokenIndex := 0, isPlaying := false }

/-- `skipToEnd` (`src/app/page.tsx` lines 165–168). -/
def skipToEnd (s : AppState) : AppState :=
  { s with currentTokenIndex := s.tokens.length, isPlaying := false }

/-- The token span `onClick` handler (`src/app/page.tsx` lines 379–382):
jump to `index + 1` — with no clamping — and stop playback. -/
def tokenSpanOnClick (i : Nat) (s : AppState) : AppState :=
  { s with currentTokenIndex := i + 1, isPlaying := false }

/-- `getCurrentMarkdown` (`src/app/page.tsx` lines 130–140): empty token
sequence short-circuits to the empty string; otherwise decode the cursor
prefix (`tokens.slice(0, currentTokenIndex)` is `List.take`). -/
def getCurrentMarkdown (v : Vocab) (s : AppState) : List Nat :=
  if s.tokens.length = 0 then []
  else decode v (s.tokens.take s.currentTokenIndex)

/-- The component state extended with the autoplay effect's scheduled
timeout (`src/app/page.tsx` lines 91–100): `pending` is the remaining delay
of the timer set by `setTimeout`, `none` when no tick is scheduled. -/
structure TimerState where
  app : AppState
  pending : Option Nat
  deriving DecidableEq

/-- Re-run of the autoplay effect after its dependencies
`[isPlaying, currentTokenIndex, tokens.length, playbackSpeed]` change
(`src/app/page.tsx` lines 91–100): the cleanup clears any pending timeout,
then the body schedules a fresh tick after the full current
`playbackSpeed` when playing below the end, stops playback when playing at
the end, and schedules nothing otherwise. -/
def runAutoplayEffect (t : TimerState) : TimerState :=
  if t.app.isPlaying ∧ t.app.currentTokenIndex < t.app.tokens.length then
    { t with pending := some t.app.playbackSpeed }
  else if t.app.isPlaying then
    { app := { t.app with isPlaying := false }, pending := none }
  else { t with pending := none }

/-- Wall-clock time passing by `d` units with no event firing: the pending
delay shrinks. -/
def elapse (d : Nat) (t : TimerState) : TimerState :=
  { t with pending := t.pending.map (fun r => r - d) }

/-- The speed `select` `onChange` handler (`src/app/page.tsx` lines
216–224): store the new speed; since `playbackSpeed` is in the autoplay
effect's dependency list, the effect re-runs. -/
def speedSelectOnChange (v : Nat) (t : TimerState) : TimerState :=
  runAutoplayEffect { t with app := { t.app with playbackSpeed := v } }

/-- The value of a little-endian decimal digit list. -/
def valOf (ds : List Nat) : Nat :=
  ds.foldr (fun d r => d + 10 * r) 0

/-- Little-endian decimal digits of `n`, computed with explicit fuel. -/
def natDigits : Nat → Nat → List Nat
  | 0, _ => []
  | _ + 1, 0 => []
  | fuel + 1, n + 1 => ((n + 1) % 10) :: natDigits fuel ((n + 1) / 10)

/-- Modelled from the spec: the byte-group serializing one code unit `c` of
the text — the decimal digits of `c + 1` (so the group is never empty) as
ASCII digit bytes. -/
def encNat (c : Nat) : List Nat :=
  (natDigits (c + 1) (c + 1)).map (fun d => d + 48)

/-- Modelled from the spec: `serialize(text) -> token` of the Share-State
Codec (§4.4).  The `lz-string` `compressToEncodedURIComponent` used by
`src/app/page.tsx` is not in this repository's sources, so an invertible
URL-safe coding is modelled: each code unit becomes a digit group closed by
the separator byte 45 (`-`). -/
def serialize (t : List Nat) : List Nat :=
  t.flatMap (fun c => encNat c ++ [45])

/-- Modelled from the spec: the parsing loop of `deserialize` (§4.4).
`acc` holds the digit bytes of the group being read; a separator closes a
group (rejecting an empty group or a redundant leading zero, which no
serialized output contains); any other byte must be a digit; leftover
digits at the end of the input are malformed. -/
def deserializeAux : List Nat → List Nat → Option (List Nat)
  | acc, [] => if acc.isEmpty then some [] else none
  | acc, b :: rest =>
    if b = 45 then
      match acc.getLast? with
      | none => none
      | some d =>
        if d = 48 then none
        else (deserializeAux [] rest).map
               (fun vs => (valOf (acc.map (fun x => x - 48)) - 1) :: vs)
    else if 48 ≤ b ∧ b ≤ 57 then deserializeAux (acc ++ [b]) rest
    else none

/-- Modelled from the spec: `deserialize(token) -> text | failure` (§4.4);
`none` is the `DecodeFailure` signal. -/
def deserialize (l : List Nat) : Option (List Nat) :=
  deserializeAux [] l

/-- The URL load effect (`src/app/page.tsx` lines 61–74): an `md` query
parameter, when present, is decompressed; the result replaces the current
markdown only when decompression yields a non-empty text
(`if (decompressed)` — `null` and the empty string are both falsy);
otherwise the current text is kept. -/
def urlLoadEffect (current : List Nat) (mdParam : Option (List Nat)) : List Nat :=
  match mdParam with
  | none => current
  | some compressed =>
    match deserialize compressed with
    | some t => if t.isEmpty then current else t
    | none => current

/-- A concrete state whose token sequence matches its markdown under
`tinyVocab`, stopped at the start. -/
def stateAtStart : AppState :=
  { markdown := [97, 98], tokens := [256], currentTokenIndex := 0,
    isPlaying := false, playbackSpeed := 100 }

/-- A concrete state stopped with the cursor at the end of its two-token
sequence. -/
def stateAtEnd : AppState :=
  { markdown := [97, 98, 99], tokens := [256, 99], currentTokenIndex := 2,
    isPlaying := false, playbackSpeed := 100 }

/-- A concrete state in the middle of autoplay. -/
def samplePlaying : AppState :=
  { markdown := [97, 98, 99], tokens := [256, 99], currentTokenIndex := 0,
    isPlaying := true, playbackSpeed := 100 }

/-- A concrete stopped state with three tokens, used to exercise the
token-click handler. -/
def threeTokenState : AppState :=
  { markdown := [97], tokens := [1, 2, 3], currentTokenIndex := 0,
    isPlaying := false, playbackSpeed := 100 }

/-- A concrete state playing mid-stream (cursor 1 of 1), used to exercise
the edit path. -/
def midStreamState : AppState :=
  { markdown := [97], tokens := [97], currentTokenIndex := 1,
    isPlaying := true, playbackSpeed := 100 }

/-- A concrete state with an empty token sequence but a stale cursor. -/
def staleCursorState : AppState :=
  { markdown := [97], tokens := [], currentTokenIndex := 7,
    isPlaying := false, playbackSpeed := 100 }

/-! ### Tokenizer lemmas -/

theorem mergePass_decode (v : Vocab) (x y z : Nat)
    (hz : v.bytesOf z = v.bytesOf x ++ v.bytesOf y) :
    ∀ (n : Nat) (l : List Nat), l.length ≤ n →
      decode v (mergePass x y z l) = decode v l := by
  intro n
  induction n with
  | zero =>
    intro l h
    match l with
    | [] => rfl
  | succ n ih =>
    intro l h
    match l with
    | [] => rfl
    | [a] => rfl
    | a :: b :: rest =>
      simp only [List.length_cons] at h
      by_cases hab : a = x ∧ b = y
      · have hrest := ih rest (by omega)
        simp only [decode] at hrest
        simp only [mergePass, if_pos hab, decode, List.flatMap_cons]
        rw [hrest, hz, hab.1, hab.2, List.append_assoc]
      · simp only [mergePass, if_neg hab, decode, List.flatMap_cons]
        have := ih (b :: rest) (by simp; omega)
        simp only [decode, List.flatMap_cons] at this
        rw [this]

theorem applyMerges_decode (v : Vocab) :
    ∀ (ms : List (Nat × Nat × Nat)), (∀ m ∈ ms, m ∈ v.merges) →
      ∀ l, decode v (applyMerges ms l) = decode v l := by
  intro ms
  induction ms with
  | nil => intro _ l; rfl
  | cons m ms ih =>
    intro hms l
    have hstep : applyMerges (m :: ms) l
        = applyMerges ms (mergePass m.1 m.2.1 m.2.2 l) := rfl
    rw [hstep, ih (fun p hp => hms p (List.mem_cons_of_mem m hp))]
    exact mergePass_decode v m.1 m.2.1 m.2.2
      (v.merge_sound m (hms m (List.mem_cons_self m ms))) l.length l le_rfl

theorem decode_bytes (v : Vocab) :
    ∀ (t : List Nat), (∀ b ∈ t, b < 256) → decode v t = t := by
  intro t
  induction t with
  | nil => intro _; rfl
  | cons a t ih =>
    intro h
    simp only [decode, List.flatMap_cons]
    rw [v.base_sound a (h a (List.mem_cons_self a t))]
    have := ih (fun b hb => h b (List.mem_cons_of_mem a hb))
    simp only [decode] at this
    rw [this]
    rfl

theorem decode_encode (v : Vocab) (t : List Nat) (h : ∀ b ∈ t, b < 256) :
    decode v (encode v t) = t := by
  rw [encode, applyMerges_decode v v.merges (fun _ hm => hm) t, decode_bytes v t h]

theorem decode_take_append (v : Vocab) (ts : List Nat) (k : Nat) :
    decode v (ts.take k) ++ decode v (ts.drop k) = decode v ts := by
  simp only [decode]
  rw [← List.flatMap_append, List.take_append_drop]

/-! ### C1, C2: round-trip and prefix properties of the tokenizer -/

/-- C1: for every source text `t` (a byte string under the one globally
fixed vocabulary), decoding the token sequence produced by encoding `t`
returns exactly `t`: `decode (encode t) = t`. -/
theorem encode_decode_roundtrip (v : Vocab) (t : List Nat)
    (h : ∀ b ∈ t, b < 256) : decode v (encode v t) = t :=
  decode_encode v t h

theorem encode_decode_roundtrip_witness :
    decode tinyVocab (encode tinyVocab [97, 98, 99]) = [97, 98, 99] :=
  encode_decode_roundtrip tinyVocab [97, 98, 99] (by decide)

/-- C2: for every source text `t` and every `k ≤ (encode t).length`,
decoding the token prefix `(encode t).take k` yields a prefix of `t`, and
at `k = (encode t).length` it yields `t` exactly. -/
theorem prefix_decode_correct (v : Vocab) (t : List Nat)
    (h : ∀ b ∈ t, b < 256) (k : Nat) (_hk : k ≤ (encode v t).length) :
    decode v ((encode v t).take k) <+: t
    ∧ (k = (encode v t).length → decode v ((encode v t).take k) = t) := by
  constructor
  · refine ⟨decode v ((encode v t).drop k), ?_⟩
    rw [decode_take_append, decode_encode v t h]
  · intro hN
    rw [hN, List.take_length, decode_encode v t h]

theorem prefix_decode_correct_witness :
    decode tinyVocab ((encode tinyVocab [97, 98, 99]).take 1) <+: [97, 98, 99]
    ∧ (1 = (encode tinyVocab [97, 98, 99]).length →
        decode tinyVocab ((encode tinyVocab [97, 98, 99]).take 1) = [97, 98, 99]) :=
  prefix_decode_correct tinyVocab [97, 98, 99] (by decide) 1 (by decide)

/-! ### C3: cursor bounds of the cursor-setting operations -/

/-- C3 counterexample: the token span `onClick` handler does not clamp.
Invoked with index 99 on a three-token state it stores cursor 100, outside
`[0, 3]` — so "every cursor-setting operation … and every input value …
the resulting Cursor lies in [0, N]" fails as stated. -/
theorem cursor_clamp_cex :
    ¬ ((tokenSpanOnClick 99 threeTokenState).currentTokenIndex
        ≤ (tokenSpanOnClick 99 threeTokenState).tokens.length) := by
  decide

/-- C3 amended: the arrow-key steps clamp and preserve `Cursor ∈ [0, N]`
from any in-range state (as do jump-to-start and jump-to-end), while the
token-click jump stores `i + 1` unclamped, which lies in `[0, N]` exactly
when the clicked index satisfies `i < N` — true of every index the program
renders. -/
theorem cursor_bounds_amended (s : AppState) (i : Nat)
    (h : s.currentTokenIndex ≤ s.tokens.length) :
    (handleArrowRight s).currentTokenIndex ≤ (handleArrowRight s).tokens.length
    ∧ (handleArrowLeft s).currentTokenIndex ≤ (handleArrowLeft s).tokens.length
    ∧ (resetToStart s).currentTokenIndex ≤ (resetToStart s).tokens.length
    ∧ (skipToEnd s).currentTokenIndex ≤ (skipToEnd s).tokens.length
    ∧ (i < s.tokens.length →
        (tokenSpanOnClick i s).currentTokenIndex
          ≤ (tokenSpanOnClick i s).tokens.length) := by
  refine ⟨?_, ?_, ?_, ?_, ?_⟩ <;>
    simp only [handleArrowRight, handleArrowLeft, resetToStart, skipToEnd,
      tokenSpanOnClick] <;>
    omega

theorem cursor_bounds_amended_witness :
    (handleArrowRight stateAtEnd).currentTokenIndex
      ≤ (handleArrowRight stateAtEnd).tokens.length
    ∧ (handleArrowLeft stateAtEnd).currentTokenIndex
      ≤ (handleArrowLeft stateAtEnd).tokens.length
    ∧ (resetToStart stateAtEnd).currentTokenIndex
      ≤ (resetToStart stateAtEnd).tokens.length
    ∧ (skipToEnd stateAtEnd).currentTokenIndex
      ≤ (skipToEnd stateAtEnd).tokens.length
    ∧ (1 < stateAtEnd.tokens.length →
        (tokenSpanOnClick 1 stateAtEnd).currentTokenIndex
          ≤ (tokenSpanOnClick 1 stateAtEnd).tokens.length) :=
  cursor_bounds_amended stateAtEnd 1 (by decide)

/-! ### C4: manual navigation stops autoplay -/

/-- C4: each manual navigation operation — arrow-key step forward or back,
jump to start, jump to end, and the token-click jump — leaves playback
stopped immediately after the call, regardless of the prior state. -/
theorem manual_nav_stops_autoplay (s : AppState) (i : Nat) :
    (handleArrowRight s).isPlaying = false
    ∧ (handleArrowLeft s).isPlaying = false
    ∧ (resetToStart s).isPlaying = false
    ∧ (skipToEnd s).isPlaying = false
    ∧ (tokenSpanOnClick i s).isPlaying = false :=
  ⟨rfl, rfl, rfl, rfl, rfl⟩

/-! ### C6: reset on edit -/

/-- C6 counterexample: replacing the source text with the empty string does
not re-encode (the tokenize effect is guarded by `if (markdown)`), and no
edit stops playback — starting from a mid-stream playing state, after the
edit the token sequence is stale (not `encode ""`), the cursor is stale and
playback is still running. -/
theorem reset_on_edit_cex :
    ¬ ((textareaOnChange tinyVocab midStreamState []).tokens = encode tinyVocab []
        ∧ (textareaOnChange tinyVocab midStreamState []).currentTokenIndex = 0
        ∧ (textareaOnChange tinyVocab midStreamState []).isPlaying = false) := by
  decide

/-- C6 amended: mutating the source text to a non-empty string triggers a
full re-encode — afterwards `tokens = encode newText` and the cursor is 0 —
but the playback flag is untouched (autoplay, if running, continues over
the new sequence); mutating to the empty string is skipped by the
`if (markdown)` guard and leaves tokens and cursor unchanged. -/
theorem reset_on_edit_amended (v : Vocab) (s : AppState) (newText : List Nat) :
    (newText ≠ [] →
      (textareaOnChange v s newText).tokens = encode v newText
      ∧ (textareaOnChange v s newText).currentTokenIndex = 0
      ∧ (textareaOnChange v s newText).isPlaying = s.isPlaying)
    ∧ textareaOnChange v s [] = { s with markdown := [] } := by
  constructor
  · intro hne
    match newText, hne with
    | c :: cs, _ =>
      exact ⟨rfl, rfl, rfl⟩
  · rfl

theorem reset_on_edit_amended_witness :
    (textareaOnChange tinyVocab samplePlaying [99]).tokens = encode tinyVocab [99]
    ∧ (textareaOnChange tinyVocab samplePlaying [99]).currentTokenIndex = 0
    ∧ (textareaOnChange tinyVocab samplePlaying [99]).isPlaying = samplePlaying.isPlaying
    ∧ textareaOnChange tinyVocab samplePlaying []
        = { samplePlaying with markdown := [] } :=
  ⟨((reset_on_edit_amended tinyVocab samplePlaying [99]).1 (by decide)).1,
   ((reset_on_edit_amended tinyVocab samplePlaying [99]).1 (by decide)).2.1,
   ((reset_on_edit_amended tinyVocab samplePlaying [99]).1 (by decide)).2.2,
   (reset_on_edit_amended tinyVocab samplePlaying [99]).2⟩

/-! ### C8: encode-failure path -/

/-- C8 counterexample: on an encode failure the `catch` branch stores an
empty token sequence but does not reset the cursor — from a state with
cursor 2 the failure path leaves cursor 2, not 0, so the claimed
"mutually consistent triple … with Cursor = 0" fails as stated. -/
theorem encode_failure_cex :
    ¬ ((tokenizeEffectWith stateAtEnd (Except.error ())).currentTokenIndex = 0) := by
  decide

/-- C8 amended: on an encode failure (non-empty markdown) the token
sequence becomes empty and the document renders as empty output —
`getCurrentMarkdown` returns `""` whenever the token sequence is empty —
but the cursor is left at its stale prior value rather than 0. -/
theorem encode_failure_amended (v : Vocab) (s : AppState)
    (h : s.markdown ≠ []) :
    (tokenizeEffectWith s (Except.error ())).tokens = []
    ∧ (tokenizeEffectWith s (Except.error ())).currentTokenIndex
        = s.currentTokenIndex
    ∧ getCurrentMarkdown v (tokenizeEffectWith s (Except.error ())) = [] := by
  obtain ⟨md, tk, ci, ip, sp⟩ := s
  match md, h with
  | c :: cs, _ =>
    exact ⟨rfl, rfl, rfl⟩

theorem encode_failure_amended_witness :
    (tokenizeEffectWith stateAtEnd (Except.error ())).tokens = []
    ∧ (tokenizeEffectWith stateAtEnd (Except.error ())).currentTokenIndex
        = stateAtEnd.currentTokenIndex
    ∧ getCurrentMarkdown tinyVocab (tokenizeEffectWith stateAtEnd (Except.error ())) = [] :=
  encode_failure_amended tinyVocab stateAtEnd (by decide)

/-! ### C10: empty token sequence renders empty -/

/-- C10: whenever the token sequence is empty, `getCurrentMarkdown` returns
the empty string for every cursor value, including stale values greater
than 0 (the empty-check short-circuits before any decode). -/
theorem empty_tokens_markdown_empty (v : Vocab) (s : AppState)
    (h : s.tokens = []) : getCurrentMarkdown v s = [] := by
  simp [getCurrentMarkdown, h]

theorem empty_tokens_markdown_empty_witness :
    getCurrentMarkdown tinyVocab staleCursorState = [] :=
  empty_tokens_markdown_empty tinyVocab staleCursorState rfl

/-! ### C5: autoplay termination -/

theorem autoplayStep_run (md tk : List Nat) (ci sp : Nat) :
    ∀ (k : Nat), ci + k ≤ tk.length →
      autoplayStep^[k] ⟨md, tk, ci, true, sp⟩ = ⟨md, tk, ci + k, true, sp⟩ := by
  intro k
  induction k with
  | zero => intro _; rfl
  | succ k ih =>
    intro hk
    rw [Function.iterate_succ_apply', ih (by omega)]
    have hc : ci + k < tk.length := by omega
    have hmin : min (ci + k + 1) tk.length = ci + (k + 1) := by omega
    simp [autoplayStep, hc, hmin]

theorem autoplayStep_at_end (md tk : List Nat) (ci sp : Nat)
    (h : tk.length ≤ ci) :
    autoplayStep ⟨md, tk, ci, true, sp⟩ = ⟨md, tk, ci, false, sp⟩ := by
  have hc : ¬ (ci < tk.length) := by omega
  simp [autoplayStep, hc]

theorem autoplayStep_stopped (s : AppState) (h : s.isPlaying = false) :
    autoplayStep s = s := by
  simp [autoplayStep, h]

theorem autoplayStep_invariant (s : AppState)
    (h : s.currentTokenIndex ≤ s.tokens.length) :
    (autoplayStep s).currentTokenIndex ≤ (autoplayStep s).tokens.length
    ∧ (autoplayStep s).tokens = s.tokens := by
  simp only [autoplayStep]
  split_ifs <;> simp <;> omega

theorem autoplay_iterate_bound (s : AppState)
    (h : s.currentTokenIndex ≤ s.tokens.length) :
    ∀ k, (autoplayStep^[k] s).currentTokenIndex ≤ s.tokens.length := by
  have H : ∀ k, (autoplayStep^[k] s).currentTokenIndex
        ≤ (autoplayStep^[k] s).tokens.length
      ∧ (autoplayStep^[k] s).tokens = s.tokens := by
    intro k
    induction k with
    | zero => exact ⟨h, rfl⟩
    | succ k ih =>
      rw [Function.iterate_succ_apply']
      obtain ⟨h1, h2⟩ := ih
      have h3 := autoplayStep_invariant _ h1
      exact ⟨h3.1, by rw [h3.2, h2]⟩
  intro k
  have := (H k).1
  rw [(H k).2] at this
  exact this

/-- C5: pressing play with the cursor at the end is a no-op once the
autoplay effect settles (the state returns to Stopped with nothing moved);
pressing play with the cursor below the end and letting the timer run
advances the cursor one token per tick, never past `N`, reaches `N`, and
then autonomously stops; and a stopped state is a fixed point of the
autoplay step, so playback never loops or replays. -/
theorem autoplay_termination :
    (∀ s : AppState, s.isPlaying = false →
        s.currentTokenIndex = s.tokens.length →
        autoplayStep (togglePlayback s) = s)
    ∧ (∀ s : AppState, s.isPlaying = false →
        s.currentTokenIndex < s.tokens.length →
        (∀ k, k ≤ s.tokens.length - s.currentTokenIndex →
          autoplayStep^[k] (togglePlayback s)
            = { s with isPlaying := true,
                       currentTokenIndex := s.currentTokenIndex + k })
        ∧ autoplayStep^[s.tokens.length - s.currentTokenIndex + 1]
              (togglePlayback s)
            = { s with currentTokenIndex := s.tokens.length }
        ∧ (∀ k, (autoplayStep^[k] (togglePlayback s)).currentTokenIndex
              ≤ s.tokens.length))
    ∧ (∀ s : AppState, s.isPlaying = false → autoplayStep s = s) := by
  refine ⟨?_, ?_, autoplayStep_stopped⟩
  · intro s hs hN
    obtain ⟨md, tk, ci, ip, sp⟩ := s
    dsimp only at hs hN ⊢
    subst hs
    rw [show togglePlayback ⟨md, tk, ci, false, sp⟩ = ⟨md, tk, ci, true, sp⟩ from rfl,
      autoplayStep_at_end md tk ci sp hN.ge]
  · intro s hs hlt
    obtain ⟨md, tk, ci, ip, sp⟩ := s
    dsimp only at hs hlt ⊢
    subst hs
    rw [show togglePlayback ⟨md, tk, ci, false, sp⟩ = ⟨md, tk, ci, true, sp⟩ from rfl]
    refine ⟨?_, ?_, ?_⟩
    · intro k hk
      exact autoplayStep_run md tk ci sp k (by omega)
    · rw [Function.iterate_succ_apply',
        autoplayStep_run md tk ci sp (tk.length - ci) (by omega),
        show ci + (tk.length - ci) = tk.length by omega,
        autoplayStep_at_end md tk tk.length sp le_rfl]
    · exact autoplay_iterate_bound ⟨md, tk, ci, true, sp⟩ (le_of_lt hlt)

theorem autoplay_termination_witness :
    autoplayStep (togglePlayback stateAtEnd) = stateAtEnd
    ∧ autoplayStep^[stateAtStart.tokens.length - stateAtStart.currentTokenIndex + 1]
        (togglePlayback stateAtStart)
      = { stateAtStart with currentTokenIndex := stateAtStart.tokens.length } :=
  ⟨autoplay_termination.1 stateAtEnd rfl rfl,
   (autoplay_termination.2.1 stateAtStart rfl (by decide)).2.1⟩

/-! ### C9: speed changes and the pending tick -/

/-- C9 counterexample: `playbackSpeed` is in the autoplay effect's
dependency list, so changing the speed re-runs the effect, whose cleanup
clears the pending timeout and whose body schedules a fresh one with the
full new interval.  Concretely: playing at speed 100 with 10 units left on
the pending tick, `setSpeed 200` replaces the pending delay (10 becomes
200) — the already-pending tick *is* retroactively rescheduled, contrary
to the claim. -/
theorem setSpeed_reschedules_cex :
    (speedSelectOnChange 200
        (elapse 90 (runAutoplayEffect ⟨samplePlaying, none⟩))).pending
      ≠ (elapse 90 (runAutoplayEffect ⟨samplePlaying, none⟩)).pending := by
  decide

/-- C9 amended: while playing below the end of the stream, changing the
speed to `v` takes effect immediately: the pending tick is cancelled and a
fresh tick is scheduled with the full new interval `v` (and the stored
speed becomes `v`) — not merely from the next tick boundary. -/
theorem setSpeed_behavior_amended (t : TimerState) (v : Nat)
    (h1 : t.app.isPlaying = true)
    (h2 : t.app.currentTokenIndex < t.app.tokens.length) :
    (speedSelectOnChange v t).pending = some v
    ∧ (speedSelectOnChange v t).app.playbackSpeed = v := by
  simp [speedSelectOnChange, runAutoplayEffect, h1, h2]

theorem setSpeed_behavior_amended_witness :
    (speedSelectOnChange 200 ⟨samplePlaying, some 10⟩).pending = some 200
    ∧ (speedSelectOnChange 200 ⟨samplePlaying, some 10⟩).app.playbackSpeed = 200 :=
  setSpeed_behavior_amended ⟨samplePlaying, some 10⟩ 200 rfl (by decide)

/-! ### Share-codec lemmas -/

theorem natDigits_val : ∀ (fuel n : Nat), n ≤ fuel →
    valOf (natDigits fuel n) = n := by
  intro fuel
  induction fuel with
  | zero => intro n h; interval_cases n; rfl
  | succ f ih =>
    intro n h
    match n with
    | 0 => rfl
    | m + 1 =>
      have hdiv : (m + 1) / 10 ≤ f := by
        have := Nat.div_lt_self (Nat.succ_pos m) (by norm_num : 1 < 10)
        omega
      simp only [natDigits, valOf, List.foldr_cons]
      have hv := ih ((m + 1) / 10) hdiv
      simp only [valOf] at hv
      rw [hv, Nat.mod_add_div]

theorem natDigits_lt : ∀ (fuel n d : Nat), d ∈ natDigits fuel n → d < 10 := by
  intro fuel
  induction fuel with
  | zero => intro n d h; simp [natDigits] at h
  | succ f ih =>
    intro n d h
    match n with
    | 0 => simp [natDigits] at h
    | m + 1 =>
      simp only [natDigits, List.mem_cons] at h
      rcases h with h | h
      · subst h; exact Nat.mod_lt _ (by norm_num)
      · exact ih _ _ h

theorem natDigits_getLast : ∀ (fuel n : Nat), 1 ≤ n → n ≤ fuel →
    ∃ d, (natDigits fuel n).getLast? = some d ∧ d ≠ 0 ∧ d < 10 := by
  intro fuel
  induction fuel with
  | zero => intro n h1 h2; omega
  | succ f ih =>
    intro n h1 h2
    match n with
    | m + 1 =>
      by_cases hq : (m + 1) / 10 = 0
      · have hm : m + 1 < 10 := by omega
        have hnil : natDigits f ((m + 1) / 10) = [] := by
          rw [hq]; cases f <;> rfl
        refine ⟨(m + 1) % 10, ?_, ?_, ?_⟩
        · simp [natDigits, hnil]
        · omega
        · exact Nat.mod_lt _ (by norm_num)
      · have hq1 : 1 ≤ (m + 1) / 10 := Nat.one_le_iff_ne_zero.mpr hq
        have hqf : (m + 1) / 10 ≤ f := by
          have := Nat.div_lt_self (Nat.succ_pos m) (by norm_num : 1 < 10)
          omega
        obtain ⟨d, hd, hd0, hd10⟩ := ih _ hq1 hqf
        refine ⟨d, ?_, hd0, hd10⟩
        simp only [natDigits]
        rw [List.getLast?_cons, hd]
        rfl

theorem encNat_mem (c d : Nat) (h : d ∈ encNat c) : 48 ≤ d ∧ d ≤ 57 := by
  simp only [encNat, List.mem_map] at h
  obtain ⟨e, he, rfl⟩ := h
  have := natDigits_lt (c + 1) (c + 1) e he
  omega

theorem encNat_getLast (c : Nat) :
    ∃ d, (encNat c).getLast? = some d ∧ d ≠ 48 := by
  obtain ⟨d, hd, hd0, _⟩ := natDigits_getLast (c + 1) (c + 1) (by omega) le_rfl
  refine ⟨d + 48, ?_, by omega⟩
  simp only [encNat]
  rw [List.getLast?_map, hd]
  rfl

theorem encNat_val (c : Nat) :
    valOf ((encNat c).map (fun x => x - 48)) = c + 1 := by
  simp only [encNat, List.map_map]
  have hcomp : ((fun x => x - 48) ∘ fun d => d + 48) = @id Nat := by
    funext d
    simp
  rw [hcomp, List.map_id, natDigits_val (c + 1) (c + 1) le_rfl]

theorem deserializeAux_digits :
    ∀ (ds : List Nat), (∀ d ∈ ds, 48 ≤ d ∧ d ≤ 57) →
      ∀ (acc rest : List Nat),
        deserializeAux acc (ds ++ rest) = deserializeAux (acc ++ ds) rest := by
  intro ds
  induction ds with
  | nil => intro _ acc rest; simp
  | cons d ds ih =>
    intro h acc rest
    have hd := h d (List.mem_cons_self d ds)
    have hd45 : ¬ d = 45 := by omega
    simp only [List.cons_append, deserializeAux]
    rw [if_neg hd45, if_pos hd]
    simp only [List.append_eq]
    rw [ih (fun e he => h e (List.mem_cons_of_mem d he)) (acc ++ [d]) rest]
    congr 1
    simp

theorem deserialize_serialize (t : List Nat) :
    deserialize (serialize t) = some t := by
  simp only [deserialize]
  induction t with
  | nil => rfl
  | cons c t ih =>
    have hser : serialize (c :: t) = encNat c ++ (45 :: serialize t) := by
      simp [serialize, List.flatMap_cons, List.append_assoc]
    rw [hser,
      deserializeAux_digits (encNat c) (fun d hd => encNat_mem c d hd) []
        (45 :: serialize t),
      List.nil_append]
    obtain ⟨d, hd, hd48⟩ := encNat_getLast c
    simp only [deserializeAux, if_pos rfl, hd]
    rw [if_neg hd48, ih]
    simp only [Option.map_some']
    rw [encNat_val]
    simp

/-! ### C7: share round-trip and decode-failure fallback -/

/-- C7: for every source text `t` — including the empty text and texts
with multi-byte symbols (several bytes per character) and newlines —
`deserialize (serialize t) = some t`; `deserialize` of a corrupted token
signals failure with `none` rather than throwing, and the URL load effect
then keeps the existing text instead of crashing or clearing state. -/
theorem share_roundtrip_fallback :
    (∀ t : List Nat, deserialize (serialize t) = some t)
    ∧ (∀ current bad : List Nat, deserialize bad = none →
        urlLoadEffect current (some bad) = current) := by
  constructor
  · exact deserialize_serialize
  · intro current bad h
    simp [urlLoadEffect, h]

theorem share_roundtrip_fallback_witness :
    deserialize (serialize [206, 128, 10]) = some [206, 128, 10]
    ∧ urlLoadEffect [97] (some [65]) = [97] :=
  ⟨share_roundtrip_fallback.1 [206, 128, 10],
   share_roundtrip_fallback.2 [97] [65] (by decide)⟩

end MarkdownStreaming
